import Mathlib

/-
Verification of the streaming-chat core of the inter-chat repository.

The embedding covers the two streaming consumers in the source:
  - src/hooks/useStreamingChat.ts (raw-text mode, handleSubmit / stop), and
  - src/components/chat/ChatInterface.tsx (NDJSON mode, handleSendMessage),
together with the platform pieces they rely on: a model of JavaScript
values as produced by JSON.parse, JavaScript string coercion for the
plus operator, and the WHATWG UTF-8 decoder behind TextDecoder.
-/

set_option maxRecDepth 20000

namespace InterChat

/-! ## JavaScript values

A model of the JavaScript values that can appear in this program:
the result of JSON.parse, the parts field of a UI message, and the
undefined value produced by a missing property access. -/

inductive JSValue where
  | undefined
  | null
  | jbool (b : Bool)
  | num (n : Int)
  | str (s : List Char)
  | arr (elems : List JSValue)
  | obj (props : List (List Char × JSValue))
deriving Inhabited

/-- The character list of a string literal. -/
def chars (s : String) : List Char := s.data

/-- Property lookup in an object property list, later bindings winning,
as with duplicate keys in JSON.parse. Absent keys give undefined. -/
def jgetProps (key : List Char) : List (List Char × JSValue) → JSValue
  | [] => .undefined
  | (k, v) :: rest =>
    match jgetProps key rest with
    | .undefined => if k = key then v else .undefined
    | r => r

/-- JavaScript property access v.key for the properties this program
reads. On a non-object (including an array, which has no such named
property) the result is undefined. -/
def jget (v : JSValue) (key : String) : JSValue :=
  match v with
  | .obj props => jgetProps (chars key) props
  | _ => .undefined

/-- JavaScript ToString as used by string concatenation with the plus
operator: String(undefined) = "undefined", String(null) = "null",
booleans and integers print as usual, objects give "[object Object]",
arrays join their elements with commas (null and undefined elements
printing as empty). The fuel bounds nesting depth of arrays; every value
in this development has small depth. -/
def jsToStrFuel : Nat → JSValue → String
  | _, .undefined => "undefined"
  | _, .null => "null"
  | _, .jbool b => if b then "true" else "false"
  | _, .num n => toString n
  | _, .str s => String.mk s
  | _, .obj _ => "[object Object]"
  | 0, .arr _ => ""
  | f+1, .arr xs =>
    String.intercalate ","
      (xs.map (fun v =>
        match v with
        | .undefined => ""
        | .null => ""
        | w => jsToStrFuel f w))

def jsToStr (v : JSValue) : String := jsToStrFuel 1000 v

/-- JavaScript strict equality of a value against a string literal,
as in data.type === "chunk". -/
def typeIs (v : JSValue) (key s : String) : Bool :=
  match jget v key with
  | .str t => t == chars s
  | _ => false

/-! ## A model of JSON.parse

A recursive-descent parser for the JSON grammar, returning none where
JSON.parse would throw. Numbers are supported in integer form only;
no input in this development carries a numeric payload. -/

def dquote : Char := Char.ofNat 34
def bslash : Char := Char.ofNat 92
def lbrace : Char := Char.ofNat 123
def rbrace : Char := Char.ofNat 125
def lbrack : Char := Char.ofNat 91
def rbrack : Char := Char.ofNat 93

def isJsonWs (c : Char) : Bool :=
  c.toNat = 32 || c.toNat = 9 || c.toNat = 10 || c.toNat = 13

def skipWs : List Char → List Char
  | [] => []
  | c :: cs => if isJsonWs c then skipWs cs else c :: cs

def hexDigit? (c : Char) : Option Nat :=
  if 48 ≤ c.toNat ∧ c.toNat ≤ 57 then some (c.toNat - 48)
  else if 97 ≤ c.toNat ∧ c.toNat ≤ 102 then some (c.toNat - 87)
  else if 65 ≤ c.toNat ∧ c.toNat ≤ 70 then some (c.toNat - 55)
  else none

def digitVal? (c : Char) : Option Nat :=
  if 48 ≤ c.toNat ∧ c.toNat ≤ 57 then some (c.toNat - 48) else none

/-- One character of a JSON string body: either a plain character or an
escape sequence. Never consumes a closing quote (callers check first);
rejects raw control characters as JSON.parse does. -/
def strChar? : List Char → Option (Char × List Char)
  | [] => none
  | c :: cs =>
    if c = bslash then
      match cs with
      | [] => none
      | e :: cs2 =>
        if e = dquote then some (e, cs2)
        else if e = bslash then some (e, cs2)
        else if e.toNat = 47 then some (e, cs2)
        else if e = 'n' then some (Char.ofNat 10, cs2)
        else if e = 't' then some (Char.ofNat 9, cs2)
        else if e = 'r' then some (Char.ofNat 13, cs2)
        else if e = 'b' then some (Char.ofNat 8, cs2)
        else if e = 'f' then some (Char.ofNat 12, cs2)
        else if e = 'u' then
          match cs2 with
          | h1 :: h2 :: h3 :: h4 :: cs3 =>
            match hexDigit? h1, hexDigit? h2, hexDigit? h3, hexDigit? h4 with
            | some a, some b, some c2, some d =>
              some (Char.ofNat (4096 * a + 256 * b + 16 * c2 + d), cs3)
            | _, _, _, _ => none
          | _ => none
        else none
    else if c.toNat < 32 then none
    else some (c, cs)

/-- The body of a JSON string after the opening quote, up to and
including the closing quote. Fuel is structural and at least the input
length at every call site. -/
def parseStrBody : Nat → List Char → Option (List Char × List Char)
  | 0, _ => none
  | f+1, cs =>
    match cs with
    | [] => none
    | c :: cs2 =>
      if c = dquote then some ([], cs2)
      else
        match strChar? (c :: cs2) with
        | none => none
        | some (ch, rest) =>
          match parseStrBody f rest with
          | none => none
          | some p => some (ch :: p.1, p.2)

def takeDigits : Nat → List Char → Nat × List Char
  | acc, [] => (acc, [])
  | acc, c :: cs =>
    match digitVal? c with
    | some d => takeDigits (acc * 10 + d) (cs)
    | none => (acc, c :: cs)

/-- A JSON number in integer form. A following dot or exponent marker is
rejected (JSON.parse would accept the fraction; no claim input uses
one). Leading zeros are rejected as in the JSON grammar. -/
def parseNumber : List Char → Option (JSValue × List Char)
  | cs =>
    let p := match cs with
      | c :: r => if c = '-' then (true, r) else (false, cs)
      | [] => (false, cs)
    match p.2 with
    | [] => none
    | c :: r =>
      match digitVal? c with
      | none => none
      | some d =>
        let q := if c = '0' then (d, r) else takeDigits d r
        match q.2 with
        | c2 :: _ =>
          if (digitVal? c2).isSome || c2 = '.' || c2 = 'e' || c2 = 'E' then none
          else some (.num (if p.1 then -(q.1 : Int) else (q.1 : Int)), q.2)
        | [] => some (.num (if p.1 then -(q.1 : Int) else (q.1 : Int)), q.2)

mutual

def parseValue : Nat → List Char → Option (JSValue × List Char)
  | 0, _ => none
  | f+1, cs =>
    match skipWs cs with
    | [] => none
    | c :: rest =>
      if c = lbrace then parseObjBody f rest
      else if c = lbrack then parseArrBody f rest
      else if c = dquote then
        match parseStrBody (rest.length + 1) rest with
        | some p => some (.str p.1, p.2)
        | none => none
      else if c = 't' then
        match rest with
        | 'r' :: 'u' :: 'e' :: r => some (.jbool true, r)
        | _ => none
      else if c = 'f' then
        match rest with
        | 'a' :: 'l' :: 's' :: 'e' :: r => some (.jbool false, r)
        | _ => none
      else if c = 'n' then
        match rest with
        | 'u' :: 'l' :: 'l' :: r => some (.null, r)
        | _ => none
      else parseNumber (c :: rest)

def parseObjBody : Nat → List Char → Option (JSValue × List Char)
  | 0, _ => none
  | f+1, cs =>
    match skipWs cs with
    | c :: r =>
      if c = rbrace then some (.obj [], r)
      else parseMembers f (c :: r) []
    | [] => none

def parseMembers : Nat → List Char → List (List Char × JSValue) →
    Option (JSValue × List Char)
  | 0, _, _ => none
  | f+1, cs, acc =>
    match skipWs cs with
    | c :: r =>
      if c = dquote then
        match parseStrBody (r.length + 1) r with
        | none => none
        | some kp =>
          match skipWs kp.2 with
          | ':' :: r2 =>
            match parseValue f r2 with
            | none => none
            | some vp =>
              match skipWs vp.2 with
              | ',' :: r3 => parseMembers f r3 (acc ++ [(kp.1, vp.1)])
              | c3 :: r3 =>
                if c3 = rbrace then some (.obj (acc ++ [(kp.1, vp.1)]), r3)
                else none
              | [] => none
          | _ => none
      else none
    | [] => none

def parseArrBody : Nat → List Char → Option (JSValue × List Char)
  | 0, _ => none
  | f+1, cs =>
    match skipWs cs with
    | c :: r =>
      if c = rbrack then some (.arr [], r)
      else parseElems f (c :: r) []
    | [] => none

def parseElems : Nat → List Char → List JSValue → Option (JSValue × List Char)
  | 0, _, _ => none
  | f+1, cs, acc =>
    match parseValue f cs with
    | none => none
    | some vp =>
      match skipWs vp.2 with
      | ',' :: r2 => parseElems f r2 (acc ++ [vp.1])
      | c2 :: r2 =>
        if c2 = rbrack then some (.arr (acc ++ [vp.1]), r2)
        else none
      | [] => none

end

/-- JSON.parse on one framed line: a single JSON value followed only by
whitespace; none models a thrown SyntaxError. -/
def jsonParse? (l : List Char) : Option JSValue :=
  match parseValue (l.length + 1) l with
  | some p => if (skipWs p.2).isEmpty then some p.1 else none
  | none => none

/-! ## TextDecoder: the WHATWG UTF-8 decoder

State and step function of the UTF-8 decoder from the WHATWG Encoding
standard, which specifies TextDecoder. In error mode "replacement"
each error emits U+FFFD. -/

structure Utf8State where
  codepoint : Nat
  bytesSeen : Nat
  bytesNeeded : Nat
  lowerBoundary : Nat
  upperBoundary : Nat
deriving DecidableEq

def utf8Init : Utf8State := ⟨0, 0, 0, 0x80, 0xBF⟩

def repChar : Char := Char.ofNat 0xFFFD

/-- Handling of one byte when no multi-byte sequence is in progress. -/
def utf8StartByte (b : Nat) : Utf8State × List Char :=
  if b ≤ 0x7F then (utf8Init, [Char.ofNat b])
  else if 0xC2 ≤ b ∧ b ≤ 0xDF then
    ({ utf8Init with bytesNeeded := 1, codepoint := b % 32 }, [])
  else if 0xE0 ≤ b ∧ b ≤ 0xEF then
    ({ utf8Init with
        bytesNeeded := 2
        codepoint := b % 16
        lowerBoundary := (if b = 0xE0 then 0xA0 else 0x80)
        upperBoundary := (if b = 0xED then 0x9F else 0xBF) }, [])
  else if 0xF0 ≤ b ∧ b ≤ 0xF4 then
    ({ utf8Init with
        bytesNeeded := 3
        codepoint := b % 8
        lowerBoundary := (if b = 0xF0 then 0x90 else 0x80)
        upperBoundary := (if b = 0xF4 then 0x8F else 0xBF) }, [])
  else (utf8Init, [repChar])

/-- One byte of the WHATWG UTF-8 decoder. A continuation byte outside
the expected boundaries is an error whose byte is restored to the
stream, hence reprocessed from the initial state. -/
def utf8Step (s : Utf8State) (b : Nat) : Utf8State × List Char :=
  if s.bytesNeeded = 0 then utf8StartByte b
  else if s.lowerBoundary ≤ b ∧ b ≤ s.upperBoundary then
    let cp := s.codepoint * 64 + (b % 64)
    if s.bytesSeen + 1 = s.bytesNeeded then (utf8Init, [Char.ofNat cp])
    else ({ s with
             codepoint := cp
             bytesSeen := s.bytesSeen + 1
             lowerBoundary := 0x80
             upperBoundary := 0xBF }, [])
  else
    let r := utf8StartByte b
    (r.1, repChar :: r.2)

def utf8Run (s : Utf8State) : List Nat → Utf8State × List Char
  | [] => (s, [])
  | b :: bs =>
    let r := utf8Step s b
    let r2 := utf8Run r.1 bs
    (r2.1, r.2 ++ r2.2)

/-- End of input with stream = false: a pending incomplete sequence is
an error, emitting one replacement character. -/
def utf8Flush (s : Utf8State) : List Char :=
  if s.bytesNeeded = 0 then [] else [repChar]

/-- One call decoder.decode(value) with no stream option, as in
ChatInterface.tsx: each call decodes its input as a complete stream,
flushing at the end. -/
def decodeFlush (bytes : List Nat) : String :=
  let r := utf8Run utf8Init bytes
  String.mk (r.2 ++ utf8Flush r.1)

/-- The texts produced by the NDJSON component's decode calls: one
independent flushing decode per read. -/
def ndjsonModeTexts (reads : List (List Nat)) : List String :=
  reads.map decodeFlush

/-- The texts produced by the raw-mode hook's decode calls
decoder.decode(value, with the stream option): decoder state carries
across reads and incomplete sequences are retained, never flushed. -/
def rawModeTexts (reads : List (List Nat)) : List String :=
  (reads.foldl
    (fun (p : Utf8State × List String) bytes =>
      let r := utf8Run p.1 bytes
      (r.1, p.2 ++ [String.mk r.2]))
    (utf8Init, [])).2

/-- UTF-8 encoding of one character, for building concrete transport
bytes from string literals. -/
def encodeChar (c : Char) : List Nat :=
  let n := c.toNat
  if n ≤ 0x7F then [n]
  else if n ≤ 0x7FF then [0xC0 + n / 64, 0x80 + n % 64]
  else if n ≤ 0xFFFF then
    [0xE0 + n / 4096, 0x80 + (n / 64) % 64, 0x80 + n % 64]
  else
    [0xF0 + n / 262144, 0x80 + (n / 4096) % 64, 0x80 + (n / 64) % 64,
     0x80 + n % 64]

def strBytes (s : String) : List Nat := s.data.flatMap encodeChar

/-! ## JavaScript string trimming and line splitting -/

/-- The whitespace set of JavaScript String.prototype.trim (the ASCII
part plus no-break space, the line separators and the byte order mark). -/
def isTrimWs (c : Char) : Bool :=
  c.toNat = 9 || c.toNat = 10 || c.toNat = 11 || c.toNat = 12 ||
  c.toNat = 13 || c.toNat = 32 || c.toNat = 160 ||
  c.toNat = 0x2028 || c.toNat = 0x2029 || c.toNat = 0xFEFF

def jsTrim (s : String) : String :=
  String.mk (((s.data.dropWhile isTrimWs).reverse.dropWhile isTrimWs).reverse)

/-- chunk.split with separator the newline character, as in JavaScript:
empty pieces are kept, and an input with no newline gives itself. -/
def splitNl : List Char → List (List Char)
  | [] => [[]]
  | c :: cs =>
    if c.toNat = 10 then [] :: splitNl cs
    else
      match splitNl cs with
      | [] => [[c]]
      | l :: ls => (c :: l) :: ls

/-- A piece whose trim is empty, hence falsy and dropped by the filter
over split lines. -/
def isBlank (l : List Char) : Bool := l.all isTrimWs

/-- The line framing of ChatInterface.tsx applied to the decoded text of
one read: split on newlines, keep pieces with nonempty trim. No
remainder is carried to the next read. -/
def linesOf (text : List Char) : List (List Char) :=
  (splitNl text).filter (fun l => !(isBlank l))

/-! ## ChatInterface.tsx: the NDJSON consumer

The ChatMessage interface and the state of the Chatbot component.
Identifiers (nanoid in the source) are modelled by a counter carried in
the state; the timestamp field plays no role in any claim and is
omitted. -/

inductive Role where
  | user
  | assistant
deriving DecidableEq

structure CMsg where
  id : Nat
  content : String
  role : Role
  isStreaming : Bool
deriving DecidableEq

structure CState where
  messages : List CMsg
  inputMessage : String
  isTyping : Bool
  nextId : Nat
deriving DecidableEq

/-- The initial component state: the greeting message and empty input. -/
def chatInit : CState :=
  ⟨[⟨0, "Hello! How can I help you today?", .assistant, false⟩], "", false, 1⟩

/-- The user-facing fallback set in the catch branch of
handleSendMessage. -/
def fallbackContent : String := "Sorry, something went wrong. Please try again."

/-- The setMessages update setting the content of the message whose id
is the bot message id (prev.map over the list). -/
def setContent (msgs : List CMsg) (i : Nat) (c : String) : List CMsg :=
  msgs.map (fun m => if m.id = i then { m with content := c } else m)

/-- The finally-block update clearing isStreaming on the bot message. -/
def clearStreaming (msgs : List CMsg) (i : Nat) : List CMsg :=
  msgs.map (fun m => if m.id = i then { m with isStreaming := false } else m)

/-- The body of the per-line loop in handleSendMessage. The state is the
accumulatedResponse string paired with the message list. A line that
fails JSON.parse is caught and logged, with no state change; a chunk
event appends its data (with JavaScript string coercion) to the
accumulator and writes the accumulator into the bot message; a complete
event only logs (a throw while reading finishReason off a malformed
complete event is caught by the same per-line catch); other types do
nothing. -/
def applyLine (st : String × List CMsg) (botId : Nat) (line : List Char) :
    String × List CMsg :=
  match jsonParse? line with
  | none => st
  | some v =>
    if typeIs v "type" "chunk" then
      let acc := st.1 ++ jsToStr (jget v "data")
      (acc, setContent st.2 botId acc)
    else st

/-- The per-line loop over the framed lines of one or more reads. -/
def processLines (st : String × List CMsg) (botId : Nat)
    (lines : List (List Char)) : String × List CMsg :=
  lines.foldl (fun s l => applyLine s botId l) st

/-- One iteration of the read loop: decode the read's bytes (no stream
option, so the decoder flushes), frame into lines, run the line loop. -/
def processRead (st : String × List CMsg) (botId : Nat) (bytes : List Nat) :
    String × List CMsg :=
  processLines st botId (linesOf (decodeFlush bytes).data)

/-- The whole read loop until the reader reports done. -/
def processReads (st : String × List CMsg) (botId : Nat)
    (reads : List (List Nat)) : String × List CMsg :=
  reads.foldl (fun s r => processRead s botId r) st

/-- The transport's view of one request: response status, body presence,
and the sequence of byte chunks delivered by reader.read calls. -/
structure Response where
  ok : Bool
  hasBody : Bool
  reads : List (List Nat)

/-- handleSendMessage of ChatInterface.tsx. Empty-after-trim input or an
in-flight response returns without any change. Otherwise the user
message and a pending bot message are appended, the request is issued,
and either the read loop runs (ok response with a body) or the thrown
transport error is caught and the bot message content is replaced by the
fallback text. The finally block clears isStreaming on the bot message
and resets isTyping. -/
def handleSendMessage (st : CState) (resp : Response) : CState :=
  if jsTrim st.inputMessage = "" ∨ st.isTyping = true then st
  else
    let botId := st.nextId + 1
    let msgs := st.messages ++
      [⟨st.nextId, jsTrim st.inputMessage, .user, false⟩,
       ⟨botId, "", .assistant, true⟩]
    let msgs2 :=
      if resp.ok && resp.hasBody then (processReads ("", msgs) botId resp.reads).2
      else setContent msgs botId fallbackContent
    ⟨clearStreaming msgs2 botId, "", false, st.nextId + 2⟩

/-! ## useStreamingChat.ts: the raw-text consumer

UIMessage as in lib/types.ts, except that the parts field is carried as
a JavaScript value: the subsequent-chunk branch of the source spreads
the parts array into an object literal, so the field does not stay
within the declared UIMessagePart array shape. -/

structure JMsg where
  id : Nat
  role : Role
  parts : JSValue

structure HState where
  messages : List JMsg
  input : String
  isLoading : Bool
  error : Option String
  nextId : Nat

def hookInit : HState := ⟨[], "", false, none, 0⟩

/-- parts consisting of one text part, as built for the user message and
for the first assistant chunk. -/
def textPart (t : String) : JSValue :=
  .arr [.obj [(chars "type", .str (chars "text")), (chars "text", .str t.data)]]

/-- Elements of an array as index-keyed properties, as enumerated by a
spread of the array into an object literal. -/
def enumProps : Nat → List JSValue → List (List Char × JSValue)
  | _, [] => []
  | i, x :: xs => (chars (toString i), x) :: enumProps (i + 1) xs

/-- Characters of a string as index-keyed one-character strings, as
enumerated by a spread of a string into an object literal. -/
def enumStrProps : Nat → List Char → List (List Char × JSValue)
  | _, [] => []
  | i, c :: cs => (chars (toString i), .str [c]) :: enumStrProps (i + 1) cs

/-- The own enumerable properties produced by spreading a JavaScript
value into an object literal: an array contributes its elements under
the index keys, an object its properties, a string its characters under
index keys, and any other primitive nothing. -/
def spreadProps : JSValue → List (List Char × JSValue)
  | .arr xs => enumProps 0 xs
  | .obj fs => fs
  | .str s => enumStrProps 0 s
  | _ => []

/-- The subsequent-chunk branch of the hook's read loop: take the last
message of the list, read lastMessage.parts.text (undefined, since
parts is an array), concatenate the chunk with JavaScript plus
semantics, and rebuild parts as a one-element array holding the spread
of the old parts with the text property set last. -/
def appendChunk (msgs : List JMsg) (chunk : String) : List JMsg :=
  match msgs.getLast? with
  | none => msgs
  | some last =>
    let updatedText := jsToStr (jget last.parts "text") ++ chunk
    let newParts : JSValue :=
      .arr [.obj (spreadProps last.parts ++ [(chars "text", .str updatedText.data)])]
    msgs.dropLast ++ [{ last with parts := newParts }]

/-- The hook's read loop: per read, decode with the stream option
(decoder state threads across reads), then either create the assistant
message (first chunk) or run the append branch. Returns the message
list, decoder state, first-chunk flag and id counter. -/
def rawLoop (msgs : List JMsg) (u : Utf8State) (isFirst : Bool) (ctr : Nat) :
    List (List Nat) → List JMsg × Utf8State × Bool × Nat
  | [] => (msgs, u, isFirst, ctr)
  | bytes :: rest =>
    let r := utf8Run u bytes
    let chunk := String.mk r.2
    if isFirst then
      rawLoop (msgs ++ [⟨ctr, .assistant, textPart chunk⟩]) r.1 false (ctr + 1) rest
    else
      rawLoop (appendChunk msgs chunk) r.1 false ctr rest

/-- How one call of the hook's handleSubmit ends: either a response
arrived and the loop ran to done, or an exception with the given name
was thrown after the listed reads had been processed (fetch rejection,
reader failure, or an abort). -/
inductive SubmitOutcome where
  | responded (ok : Bool) (hasBody : Bool) (reads : List (List Nat))
  | thrown (name : String) (readsBefore : List (List Nat))

/-- The name of a plain Error, as thrown for a non-ok or bodyless
response. -/
def errorName : String := "Error"

/-- The exception name a fetch or read rejects with after
AbortController.abort, filtered by the catch branch. -/
def abortName : String := "AbortError"

/-- stop() aborts the in-flight controller: the pending read rejects
with an exception named AbortError after the reads so far. -/
def stopOutcome (readsBefore : List (List Nat)) : SubmitOutcome :=
  .thrown abortName readsBefore

/-- handleSubmit of useStreamingChat.ts. Empty-after-trim input returns
without any change (there is no in-flight guard in the hook). Otherwise
the user message (with the untrimmed input as its text) is appended,
input is cleared, loading is set and error reset; the read loop then
runs to its outcome. The catch branch reports the exception only when
its name is not AbortError; the finally branch clears loading. -/
def handleSubmit (st : HState) (out : SubmitOutcome) : HState :=
  if jsTrim st.input = "" then st
  else
    let msgs := st.messages ++ [⟨st.nextId, .user, textPart st.input⟩]
    match out with
    | .responded ok hasBody reads =>
      if ok && hasBody then
        let r := rawLoop msgs utf8Init true (st.nextId + 1) reads
        ⟨r.1, "", false, none, r.2.2.2⟩
      else
        ⟨msgs, "", false, some errorName, st.nextId + 1⟩
    | .thrown name readsBefore =>
      let r := rawLoop msgs utf8Init true (st.nextId + 1) readsBefore
      ⟨r.1, "", false, (if name = abortName then none else some name), r.2.2.2⟩

/-- Index access v[i] on a JavaScript array value. -/
def jindex (v : JSValue) (i : Nat) : JSValue :=
  match v with
  | .arr xs => xs.getD i .undefined
  | _ => .undefined

/-- The text of the first part of a message's parts value, the content
the presentation layer renders for a raw-mode message. -/
def firstPartText (m : JMsg) : JSValue := jget (jindex m.parts 0) "text"

/-! ## Observations on the NDJSON message list -/

/-- The content of the first message with the given id, if any. -/
def contentAt : List CMsg → Nat → Option String
  | [], _ => none
  | m :: ms, i => if m.id = i then some m.content else contentAt ms i

/-- The isStreaming flag of the first message with the given id. -/
def streamingAt : List CMsg → Nat → Option Bool
  | [], _ => none
  | m :: ms, i => if m.id = i then some m.isStreaming else streamingAt ms i

/-- Id freshness: every id in the list is below the counter, so the two
ids minted by a send collide with nothing. This models the uniqueness of
nanoid identifiers. -/
def allIdsBelow (msgs : List CMsg) (n : Nat) : Bool :=
  msgs.all (fun m => decide (m.id < n))

/-! ## Events carried by framed lines -/

/-- The event a well-formed framed line carries. -/
inductive LineEv where
  | chunkEv (d : String)
  | completeEv

/-- Concatenation of the chunk texts of an event sequence, in order. -/
def concatEvs : List LineEv → String
  | [] => ""
  | .chunkEv d :: evs => d ++ concatEvs evs
  | .completeEv :: evs => concatEvs evs

/-- The given lines parse, in order, to the given well-formed events: a
chunk line has type chunk and a string data payload, a complete line has
type complete. -/
inductive LinesAre : List (List Char) → List LineEv → Prop where
  | nil : LinesAre [] []
  | chunk : ∀ (l : List Char) (ls : List (List Char)) (d : String)
      (evs : List LineEv) (v : JSValue),
      jsonParse? l = some v →
      jget v "type" = .str (chars "chunk") →
      jget v "data" = .str (chars d) →
      LinesAre ls evs → LinesAre (l :: ls) (.chunkEv d :: evs)
  | complete : ∀ (l : List Char) (ls : List (List Char))
      (evs : List LineEv) (v : JSValue),
      jsonParse? l = some v →
      jget v "type" = .str (chars "complete") →
      LinesAre ls evs → LinesAre (l :: ls) (.completeEv :: evs)

/-! ## Helper lemmas -/

theorem strMk_data (s : String) : String.mk s.data = s := rfl

theorem str_append_empty (s : String) : s ++ "" = s := by
  cases s with
  | mk l => exact congrArg String.mk (List.append_nil l)

theorem str_append_assoc (a b c : String) : a ++ b ++ c = a ++ (b ++ c) := by
  cases a with
  | mk la =>
    cases b with
    | mk lb =>
      cases c with
      | mk lc => exact congrArg String.mk (List.append_assoc la lb lc)

theorem setContent_cons (m : CMsg) (ms : List CMsg) (i : Nat) (c : String) :
    setContent (m :: ms) i c =
    (if m.id = i then { m with content := c } else m) :: setContent ms i c := rfl

theorem clearStreaming_cons (m : CMsg) (ms : List CMsg) (i : Nat) :
    clearStreaming (m :: ms) i =
    (if m.id = i then { m with isStreaming := false } else m) ::
      clearStreaming ms i := rfl

theorem contentAt_setContent (msgs : List CMsg) (i : Nat) (c : String) :
    contentAt (setContent msgs i c) i = (contentAt msgs i).map (fun _ => c) := by
  induction msgs with
  | nil => rfl
  | cons m ms ih =>
    rw [setContent_cons]
    by_cases h : m.id = i
    · simp [contentAt, h]
    · simp [contentAt, h, ih]

theorem contentAt_clearStreaming (msgs : List CMsg) (i j : Nat) :
    contentAt (clearStreaming msgs i) j = contentAt msgs j := by
  induction msgs with
  | nil => rfl
  | cons m ms ih =>
    rw [clearStreaming_cons]
    by_cases h : m.id = i
    · by_cases h2 : m.id = j <;> simp [contentAt, h, h2, ih]
    · by_cases h2 : m.id = j
      · subst h2
        simp [contentAt, h]
      · simp [contentAt, h, h2, ih]

theorem streamingAt_setContent (msgs : List CMsg) (i : Nat) (c : String) (j : Nat) :
    streamingAt (setContent msgs i c) j = streamingAt msgs j := by
  induction msgs with
  | nil => rfl
  | cons m ms ih =>
    rw [setContent_cons]
    by_cases h : m.id = i
    · by_cases h2 : m.id = j <;> simp [streamingAt, h, h2, ih]
    · by_cases h2 : m.id = j
      · subst h2
        simp [streamingAt, h]
      · simp [streamingAt, h, h2, ih]

theorem streamingAt_clearStreaming (msgs : List CMsg) (i : Nat) :
    streamingAt (clearStreaming msgs i) i =
    (streamingAt msgs i).map (fun _ => false) := by
  induction msgs with
  | nil => rfl
  | cons m ms ih =>
    rw [clearStreaming_cons]
    by_cases h : m.id = i
    · simp [streamingAt, h]
    · simp [streamingAt, h, ih]

theorem contentAt_skip (a b : List CMsg) (i : Nat) (h : ∀ m ∈ a, m.id ≠ i) :
    contentAt (a ++ b) i = contentAt b i := by
  induction a with
  | nil => rfl
  | cons m ms ih =>
    have hm : m.id ≠ i := h m (by simp)
    simp only [List.cons_append, contentAt, if_neg hm]
    exact ih (fun x hx => h x (by simp [hx]))

theorem streamingAt_skip (a b : List CMsg) (i : Nat) (h : ∀ m ∈ a, m.id ≠ i) :
    streamingAt (a ++ b) i = streamingAt b i := by
  induction a with
  | nil => rfl
  | cons m ms ih =>
    have hm : m.id ≠ i := h m (by simp)
    simp only [List.cons_append, streamingAt, if_neg hm]
    exact ih (fun x hx => h x (by simp [hx]))

theorem allIdsBelow_ne (msgs : List CMsg) (n : Nat)
    (h : allIdsBelow msgs n = true) :
    ∀ m ∈ msgs, m.id ≠ n ∧ m.id ≠ n + 1 := by
  intro m hm
  have := (List.all_eq_true.mp h) m hm
  have hlt : m.id < n := of_decide_eq_true this
  omega

theorem typeIs_chunk_of (v : JSValue)
    (ht : jget v "type" = .str (chars "chunk")) :
    typeIs v "type" "chunk" = true := by
  simp [typeIs, ht]

theorem typeIs_chunk_of_complete (v : JSValue)
    (ht : jget v "type" = .str (chars "complete")) :
    typeIs v "type" "chunk" = false := by
  simp only [typeIs, ht]
  decide

theorem applyLine_parse_none (st : String × List CMsg) (botId : Nat)
    (l : List Char) (h : jsonParse? l = none) :
    applyLine st botId l = st := by
  unfold applyLine
  rw [h]

theorem applyLine_not_chunk (st : String × List CMsg) (botId : Nat)
    (l : List Char) (v : JSValue) (hp : jsonParse? l = some v)
    (ht : typeIs v "type" "chunk" = false) :
    applyLine st botId l = st := by
  unfold applyLine
  rw [hp]
  simp [ht]

theorem applyLine_chunk (acc : String) (msgs : List CMsg) (botId : Nat)
    (l : List Char) (v : JSValue) (d : String)
    (hp : jsonParse? l = some v)
    (ht : jget v "type" = .str (chars "chunk"))
    (hd : jget v "data" = .str (chars d)) :
    applyLine (acc, msgs) botId l = (acc ++ d, setContent msgs botId (acc ++ d)) := by
  unfold applyLine
  rw [hp]
  simp only [typeIs_chunk_of v ht, if_pos]
  rw [hd]
  have : jsToStr (.str (chars d)) = d := strMk_data d
  simp [this]

theorem processLines_cons (st : String × List CMsg) (botId : Nat)
    (l : List Char) (ls : List (List Char)) :
    processLines st botId (l :: ls) =
    processLines (applyLine st botId l) botId ls := rfl

/-- The central accumulation lemma: folding a sequence of well-formed
events over the line loop appends the concatenation of the chunk texts
to both the accumulator and the tracked message content. -/
theorem processLines_linesAre (botId : Nat) :
    ∀ (lines : List (List Char)) (evs : List LineEv), LinesAre lines evs →
    ∀ (acc : String) (msgs : List CMsg), contentAt msgs botId = some acc →
    (processLines (acc, msgs) botId lines).1 = acc ++ concatEvs evs ∧
    contentAt (processLines (acc, msgs) botId lines).2 botId =
      some (acc ++ concatEvs evs) := by
  intro lines evs h
  induction h with
  | nil =>
    intro acc msgs hc
    simp [processLines, concatEvs, hc, str_append_empty]
  | chunk l ls d evs v hp ht hd hrest ih =>
    intro acc msgs hc
    rw [processLines_cons, applyLine_chunk acc msgs botId l v d hp ht hd]
    have hc2 : contentAt (setContent msgs botId (acc ++ d)) botId = some (acc ++ d) := by
      rw [contentAt_setContent, hc]
      rfl
    have hih := ih (acc ++ d) (setContent msgs botId (acc ++ d)) hc2
    have hca : concatEvs (.chunkEv d :: evs) = d ++ concatEvs evs := rfl
    rw [hca, ← str_append_assoc]
    exact hih
  | complete l ls evs v hp ht hrest ih =>
    intro acc msgs hc
    rw [processLines_cons,
      applyLine_not_chunk (acc, msgs) botId l v hp (typeIs_chunk_of_complete v ht)]
    exact ih acc msgs hc

/-! ## Concrete wire inputs used by the claims -/

def chunkHelLine : String := "\x7b\"type\":\"chunk\",\"data\":\"Hel\"\x7d"
def chunkLoLine : String := "\x7b\"type\":\"chunk\",\"data\":\"lo\"\x7d"
def completeLine : String := "\x7b\"type\":\"complete\",\"data\":\x7b\"finishReason\":\"stop\"\x7d\x7d"
def chunkXLine : String := "\x7b\"type\":\"chunk\",\"data\":\"x\"\x7d"
def badChunkLine : String := "\x7b\"type\":\"chunk\"\x7d"
def fragA : String := "\x7b\"type\":\"ch"
def fragB : String := "unk\",\"data\":\"x\"\x7d"

def chunkHelVal : JSValue :=
  .obj [(chars "type", .str (chars "chunk")), (chars "data", .str (chars "Hel"))]
def chunkLoVal : JSValue :=
  .obj [(chars "type", .str (chars "chunk")), (chars "data", .str (chars "lo"))]
def completeVal : JSValue :=
  .obj [(chars "type", .str (chars "complete")),
        (chars "data", .obj [(chars "finishReason", .str (chars "stop"))])]
def chunkXVal : JSValue :=
  .obj [(chars "type", .str (chars "chunk")), (chars "data", .str (chars "x"))]
def badChunkVal : JSValue := .obj [(chars "type", .str (chars "chunk"))]

def rHel : List Nat := strBytes (chunkHelLine ++ "\n")
def rLo : List Nat := strBytes (chunkLoLine ++ "\n")
def rComp : List Nat := strBytes (completeLine ++ "\n")
def rChunkX : List Nat := strBytes (chunkXLine ++ "\n")

def defaultCMsg : CMsg := ⟨0, "", .user, false⟩

/-- The two transport reads of the split-record scenario: the bytes of
one NDJSON chunk record cut in the middle of the word chunk. -/
def euroSplitReads : List (List Nat) := [[0xE2, 0x82], [0xAC]]

/-! ## The claims -/

/-- Claim C1. The claim states that in raw-text mode the first chunk
creates the assistant message and each later chunk is appended to its
text, so the chunks "Hi " and "there" end as "Hi there". The code
instead reads lastMessage.parts.text, which is undefined because parts
is an array, and concatenates the chunk onto the string "undefined":
at the claim's own input the final assistant text is "undefinedthere",
not "Hi there". This is the property-name slip the specification's
design notes flag in the source. -/
theorem c1_code_bug :
    firstPartText ((handleSubmit { hookInit with input := "q" }
        (.responded true true [strBytes "Hi ", strBytes "there"])).messages.getLastD
        ⟨0, .user, .undefined⟩) = .str (chars "undefinedthere") ∧
    JSValue.str (chars "undefinedthere") ≠ JSValue.str (chars "Hi there") := by
  constructor
  · rfl
  · intro h
    injection h with h2
    exact absurd h2 (by decide)

/-- Claim C2. In NDJSON mode the final assistant message content is the
concatenation of the chunk events' data in delivery order: the general
statement over any sequence of well-formed framed lines, and the
concrete scenario with the lines carrying "Hel", "lo" and a complete
event ending with content "Hello" on a finalized message. -/
theorem c2_ndjson_concat :
    (∀ (lines : List (List Char)) (evs : List LineEv) (acc : String)
       (msgs : List CMsg) (botId : Nat), LinesAre lines evs →
       contentAt msgs botId = some acc →
       (processLines (acc, msgs) botId lines).1 = acc ++ concatEvs evs ∧
       contentAt (processLines (acc, msgs) botId lines).2 botId =
         some (acc ++ concatEvs evs)) ∧
    (handleSendMessage { chatInit with inputMessage := "hi" }
        ⟨true, true, [rHel, rLo, rComp]⟩).messages =
      [⟨0, "Hello! How can I help you today?", .assistant, false⟩,
       ⟨1, "hi", .user, false⟩, ⟨2, "Hello", .assistant, false⟩] := by
  constructor
  · intro lines evs acc msgs botId h hc
    exact processLines_linesAre botId lines evs h acc msgs hc
  · decide

/-- Witness for C2 at the concrete scenario lines. -/
theorem c2_ndjson_concat_witness :
    (processLines ("", [⟨2, "", .assistant, true⟩]) 2
        [chars chunkHelLine, chars chunkLoLine, chars completeLine]).1 =
      "" ++ concatEvs [.chunkEv "Hel", .chunkEv "lo", .completeEv] ∧
    contentAt (processLines ("", [⟨2, "", .assistant, true⟩]) 2
        [chars chunkHelLine, chars chunkLoLine, chars completeLine]).2 2 =
      some ("" ++ concatEvs [.chunkEv "Hel", .chunkEv "lo", .completeEv]) :=
  c2_ndjson_concat.1 _ _ _ _ _
    (.chunk _ _ _ _ chunkHelVal rfl rfl rfl
      (.chunk _ _ _ _ chunkLoVal rfl rfl rfl
        (.complete _ _ _ completeVal rfl rfl .nil)))
    rfl

/-- Claim C3. The claim states that a record split across two reads is
framed into exactly one complete line. The framing in the code splits
each read's text independently and retains no remainder: the two reads
of the split scenario frame into the two fragments themselves, each
fragment fails JSON.parse (while the whole record would parse), and the
record's chunk data "x" never reaches the message, whose content stays
empty. -/
theorem c3_code_bug :
    linesOf (chars fragA) = [chars fragA] ∧
    linesOf (chars (fragB ++ "\n")) = [chars fragB] ∧
    jsonParse? (chars fragA) = none ∧
    jsonParse? (chars fragB) = none ∧
    jsonParse? (chars chunkXLine) = some chunkXVal ∧
    (handleSendMessage { chatInit with inputMessage := "hi" }
        ⟨true, true, [strBytes fragA, strBytes (fragB ++ "\n")]⟩).messages.getLastD
        defaultCMsg = ⟨2, "", .assistant, false⟩ := by
  refine ⟨rfl, rfl, rfl, rfl, rfl, ?_⟩
  decide

/-- Claim C4, counterexample. A chunk event delivered after a complete
event is not discarded: starting from the initial state, the reads
complete-then-chunk-x leave the assistant message with content "x",
while the same run without the late chunk leaves it empty. -/
theorem c4_counterexample :
    (handleSendMessage { chatInit with inputMessage := "hi" }
        ⟨true, true, [rComp, rChunkX]⟩).messages.getLastD defaultCMsg =
      ⟨2, "x", .assistant, false⟩ ∧
    (handleSendMessage { chatInit with inputMessage := "hi" }
        ⟨true, true, [rComp]⟩).messages.getLastD defaultCMsg =
      ⟨2, "", .assistant, false⟩ ∧
    ("x" : String) ≠ "" := by
  refine ⟨by decide, by decide, by decide⟩

/-- Claim C4 as amended: a complete event leaves the loop state
unchanged (its handler only logs), so a chunk event arriving after it is
applied like any other chunk and appends its data to the accumulator and
the tracked message content. -/
theorem c4_late_chunk_applied :
    ∀ (lc lx : List Char) (v w : JSValue) (d acc : String)
      (msgs : List CMsg) (botId : Nat),
      jsonParse? lc = some v → jget v "type" = .str (chars "complete") →
      jsonParse? lx = some w → jget w "type" = .str (chars "chunk") →
      jget w "data" = .str (chars d) →
      processLines (acc, msgs) botId [lc, lx] =
        (acc ++ d, setContent msgs botId (acc ++ d)) := by
  intro lc lx v w d acc msgs botId hpc htc hpx htx hdx
  rw [processLines_cons,
    applyLine_not_chunk (acc, msgs) botId lc v hpc (typeIs_chunk_of_complete v htc),
    processLines_cons, applyLine_chunk acc msgs botId lx w d hpx htx hdx]
  rfl

/-- Witness for the amended C4 at the concrete complete and chunk
lines. -/
theorem c4_late_chunk_applied_witness :
    processLines ("", [⟨2, "", .assistant, true⟩]) 2
        [chars completeLine, chars chunkXLine] =
      ("" ++ "x", setContent [⟨2, "", .assistant, true⟩] 2 ("" ++ "x")) :=
  c4_late_chunk_applied (chars completeLine) (chars chunkXLine)
    completeVal chunkXVal "x" "" [⟨2, "", .assistant, true⟩] 2
    rfl rfl rfl rfl rfl

/-- Claim C5. A non-ok response or an absent body means the thrown
transport error is caught before any read: in the NDJSON component the
bot message ends with the fallback content and cleared streaming flag,
and the outcome is independent of whatever reads the transport would
have carried; in the raw-mode hook the error state is set, no assistant
message is created, and loading is cleared. -/
theorem c5_transport_error :
    (∀ (st : CState) (resp : Response),
       jsTrim st.inputMessage ≠ "" → st.isTyping = false →
       allIdsBelow st.messages st.nextId = true →
       resp.ok = false ∨ resp.hasBody = false →
       contentAt (handleSendMessage st resp).messages (st.nextId + 1) =
         some fallbackContent ∧
       streamingAt (handleSendMessage st resp).messages (st.nextId + 1) =
         some false ∧
       handleSendMessage st resp = handleSendMessage st ⟨resp.ok, resp.hasBody, []⟩) ∧
    (∀ (st : HState) (ok hasBody : Bool) (reads : List (List Nat)),
       jsTrim st.input ≠ "" → ok = false ∨ hasBody = false →
       (handleSubmit st (.responded ok hasBody reads)).error = some errorName ∧
       (handleSubmit st (.responded ok hasBody reads)).messages =
         st.messages ++ [⟨st.nextId, .user, textPart st.input⟩] ∧
       (handleSubmit st (.responded ok hasBody reads)).isLoading = false) := by
  constructor
  · intro st resp hin htyp hfresh hbad
    have hguard : ¬ (jsTrim st.inputMessage = "" ∨ st.isTyping = true) := by
      intro hor
      cases hor with
      | inl h => exact hin h
      | inr h => rw [htyp] at h; cases h
    have hcond : (resp.ok && resp.hasBody) = false := by
      cases hbad with
      | inl h => rw [h]; rfl
      | inr h => rw [h]; exact Bool.and_false _
    have hne : ∀ m ∈ st.messages, m.id ≠ st.nextId + 1 :=
      fun m hm => (allIdsBelow_ne st.messages st.nextId hfresh m hm).2
    refine ⟨?_, ?_, ?_⟩
    · unfold handleSendMessage
      rw [if_neg hguard]
      simp only [hcond, Bool.false_eq_true, if_false]
      rw [contentAt_clearStreaming, contentAt_setContent,
        contentAt_skip _ _ _ hne]
      simp [contentAt, Nat.succ_ne_self]
    · unfold handleSendMessage
      rw [if_neg hguard]
      simp only [hcond, Bool.false_eq_true, if_false]
      rw [streamingAt_clearStreaming, streamingAt_setContent,
        streamingAt_skip _ _ _ hne]
      simp [streamingAt, Nat.succ_ne_self]
    · unfold handleSendMessage
      rw [if_neg hguard, if_neg hguard]
      simp [hcond]
  · intro st ok hasBody reads hin hbad
    have hcond : (ok && hasBody) = false := by
      cases hbad with
      | inl h => rw [h]; rfl
      | inr h => rw [h]; exact Bool.and_false _
    unfold handleSubmit
    rw [if_neg hin]
    simp [hcond]

/-- Witness for C5: a 500-style response against the initial states of
both components. -/
theorem c5_transport_error_witness :
    (contentAt (handleSendMessage { chatInit with inputMessage := "hi" }
        ⟨false, true, [rHel]⟩).messages 2 = some fallbackContent ∧
     streamingAt (handleSendMessage { chatInit with inputMessage := "hi" }
        ⟨false, true, [rHel]⟩).messages 2 = some false ∧
     handleSendMessage { chatInit with inputMessage := "hi" } ⟨false, true, [rHel]⟩ =
       handleSendMessage { chatInit with inputMessage := "hi" } ⟨false, true, []⟩) ∧
    ((handleSubmit { hookInit with input := "q" }
        (.responded false true [])).error = some errorName ∧
     (handleSubmit { hookInit with input := "q" }
        (.responded false true [])).messages =
       ({ hookInit with input := "q" } : HState).messages ++
         [⟨0, .user, textPart "q"⟩] ∧
     (handleSubmit { hookInit with input := "q" }
        (.responded false true [])).isLoading = false) :=
  ⟨c5_transport_error.1 { chatInit with inputMessage := "hi" } ⟨false, true, [rHel]⟩
      (by decide) rfl (by decide) (Or.inl rfl),
   c5_transport_error.2 { hookInit with input := "q" } false true []
      (by decide) (Or.inl rfl)⟩

/-- Claim C6, counterexample. The line carrying a JSON object of type
chunk but no data field fails the expected event shape (its data is
undefined, not a string), yet processing it changes the message state:
the accumulator and the bot message content become "undefined". -/
theorem c6_counterexample :
    jsonParse? (chars badChunkLine) = some badChunkVal ∧
    jget badChunkVal "data" = .undefined ∧
    applyLine ("", [⟨2, "", .assistant, true⟩]) 2 (chars badChunkLine) =
      ("undefined", [⟨2, "undefined", .assistant, true⟩]) ∧
    (("undefined", [(⟨2, "undefined", .assistant, true⟩ : CMsg)]) :
        String × List CMsg) ≠ ("", [⟨2, "", .assistant, true⟩]) :=
  ⟨rfl, rfl, rfl, by decide⟩

/-- Claim C6 as amended: a line that fails JSON.parse is caught inside
the per-line loop, changes nothing, and processing continues with the
remaining lines, so later well-formed lines are still applied; however a
parseable chunk-typed line whose data fails the expected string shape is
applied through JavaScript coercion rather than ignored. -/
theorem c6_parse_fail_noop :
    (∀ (st : String × List CMsg) (botId : Nat) (l : List Char),
       jsonParse? l = none → applyLine st botId l = st) ∧
    (∀ (st : String × List CMsg) (botId : Nat) (l : List Char)
       (rest : List (List Char)), jsonParse? l = none →
       processLines st botId (l :: rest) = processLines st botId rest) := by
  constructor
  · intro st botId l h
    exact applyLine_parse_none st botId l h
  · intro st botId l rest h
    rw [processLines_cons, applyLine_parse_none st botId l h]

/-- Witness for the amended C6: a malformed fragment is a no-op and the
following well-formed chunk line still applies. -/
theorem c6_parse_fail_noop_witness :
    applyLine ("", [⟨2, "", .assistant, true⟩]) 2 (chars fragA) =
      ("", [⟨2, "", .assistant, true⟩]) ∧
    processLines ("", [⟨2, "", .assistant, true⟩]) 2
        [chars fragA, chars chunkXLine] =
      processLines ("", [⟨2, "", .assistant, true⟩]) 2 [chars chunkXLine] :=
  ⟨c6_parse_fail_noop.1 _ 2 (chars fragA) rfl,
   c6_parse_fail_noop.2 _ 2 (chars fragA) [chars chunkXLine] rfl⟩

/-- Claim C7. The claim states that both modes buffer an incomplete
multi-byte sequence across reads. The raw-mode hook does (it passes the
stream option): the euro sign split as 0xE2 0x82 / 0xAC decodes to the
correct character. The NDJSON component calls decode with no options, so
each read is flushed independently and the same two reads decode to two
replacement characters instead. -/
theorem c7_code_bug :
    String.join (rawModeTexts euroSplitReads) = "€" ∧
    ndjsonModeTexts euroSplitReads = [String.mk [repChar], String.mk [repChar]] ∧
    String.mk [repChar, repChar] ≠ "€" := by
  refine ⟨rfl, rfl, by decide⟩

/-- Claim C8, counterexample. When the stream ends with no chunks and no
complete event, the assistant message is not finalized as failed: its
content stays empty (in this component a failure shows as the fallback
content) and no failure reason exists in the state; only the streaming
flag is cleared. -/
theorem c8_counterexample :
    (handleSendMessage { chatInit with inputMessage := "hi" }
        ⟨true, true, []⟩).messages.getLastD defaultCMsg =
      ⟨2, "", .assistant, false⟩ ∧
    ("" : String) ≠ fallbackContent := by
  refine ⟨by decide, by decide⟩

/-- Claim C8 as amended: an empty stream leaves the assistant message
with empty content and the streaming flag cleared; it is never left in a
streaming state, but neither is it marked failed nor given any reason. -/
theorem c8_empty_stream_finalized :
    ∀ (st : CState) (resp : Response),
      jsTrim st.inputMessage ≠ "" → st.isTyping = false →
      allIdsBelow st.messages st.nextId = true →
      resp.ok = true → resp.hasBody = true → resp.reads = [] →
      contentAt (handleSendMessage st resp).messages (st.nextId + 1) = some "" ∧
      streamingAt (handleSendMessage st resp).messages (st.nextId + 1) =
        some false := by
  intro st resp hin htyp hfresh hok hbody hreads
  have hguard : ¬ (jsTrim st.inputMessage = "" ∨ st.isTyping = true) := by
    intro hor
    cases hor with
    | inl h => exact hin h
    | inr h => rw [htyp] at h; cases h
  have hne : ∀ m ∈ st.messages, m.id ≠ st.nextId + 1 :=
    fun m hm => (allIdsBelow_ne st.messages st.nextId hfresh m hm).2
  unfold handleSendMessage
  rw [if_neg hguard]
  simp only [hok, hbody, hreads, Bool.and_self, if_true]
  have hpr : processReads ("", st.messages ++
      [⟨st.nextId, jsTrim st.inputMessage, .user, false⟩,
       ⟨st.nextId + 1, "", .assistant, true⟩]) (st.nextId + 1) [] =
      ("", st.messages ++
      [⟨st.nextId, jsTrim st.inputMessage, .user, false⟩,
       ⟨st.nextId + 1, "", .assistant, true⟩]) := rfl
  rw [hpr]
  constructor
  · rw [contentAt_clearStreaming, contentAt_skip _ _ _ hne]
    simp [contentAt, Nat.succ_ne_self]
  · rw [streamingAt_clearStreaming, streamingAt_skip _ _ _ hne]
    simp [streamingAt, Nat.succ_ne_self]

/-- Witness for the amended C8 at the initial state. -/
theorem c8_empty_stream_finalized_witness :
    contentAt (handleSendMessage { chatInit with inputMessage := "hi" }
        ⟨true, true, []⟩).messages 2 = some "" ∧
    streamingAt (handleSendMessage { chatInit with inputMessage := "hi" }
        ⟨true, true, []⟩).messages 2 = some false :=
  c8_empty_stream_finalized { chatInit with inputMessage := "hi" }
    ⟨true, true, []⟩ (by decide) rfl (by decide) rfl rfl rfl

/-- Claim C9. An abort raised by stop() is filtered by the catch branch:
the observable error stays null and loading is cleared, while an
exception with any other name is stored in the error state (and loading
is cleared all the same). -/
theorem c9_abort_not_error :
    (∀ (st : HState) (reads : List (List Nat)), jsTrim st.input ≠ "" →
       (handleSubmit st (stopOutcome reads)).error = none ∧
       (handleSubmit st (stopOutcome reads)).isLoading = false) ∧
    (∀ (st : HState) (name : String) (reads : List (List Nat)),
       jsTrim st.input ≠ "" → name ≠ abortName →
       (handleSubmit st (.thrown name reads)).error = some name ∧
       (handleSubmit st (.thrown name reads)).isLoading = false) := by
  constructor
  · intro st reads hin
    unfold handleSubmit stopOutcome
    rw [if_neg hin]
    simp
  · intro st name reads hin hname
    unfold handleSubmit
    rw [if_neg hin]
    simp [hname]

/-- Witness for C9: an abort after one processed read, and a TypeError. -/
theorem c9_abort_not_error_witness :
    ((handleSubmit { hookInit with input := "q" }
        (stopOutcome [strBytes "He"])).error = none ∧
     (handleSubmit { hookInit with input := "q" }
        (stopOutcome [strBytes "He"])).isLoading = false) ∧
    ((handleSubmit { hookInit with input := "q" }
        (.thrown "TypeError" [])).error = some "TypeError" ∧
     (handleSubmit { hookInit with input := "q" }
        (.thrown "TypeError" [])).isLoading = false) :=
  ⟨c9_abort_not_error.1 { hookInit with input := "q" } [strBytes "He"] (by decide),
   c9_abort_not_error.2 { hookInit with input := "q" } "TypeError" [] (by decide)
     (by decide)⟩

/-- Claim C10. Empty or whitespace-only input is a no-op in both
components, and the NDJSON component also ignores a submit while a
response is streaming: the whole state is returned unchanged, so no
message is appended, no request issued, and input, flags and error state
keep their values. -/
theorem c10_noop_guard :
    (∀ (st : HState) (out : SubmitOutcome), jsTrim st.input = "" →
       handleSubmit st out = st) ∧
    (∀ (st : CState) (resp : Response),
       jsTrim st.inputMessage = "" ∨ st.isTyping = true →
       handleSendMessage st resp = st) := by
  constructor
  · intro st out h
    unfold handleSubmit
    rw [if_pos h]
  · intro st resp h
    unfold handleSendMessage
    rw [if_pos h]

/-- Witness for C10: whitespace-only input in the hook, and an in-flight
submit in the NDJSON component. -/
theorem c10_noop_guard_witness :
    handleSubmit { hookInit with input := "  " } (.responded true true [strBytes "x"]) =
      { hookInit with input := "  " } ∧
    handleSendMessage { chatInit with inputMessage := "hi", isTyping := true }
        ⟨true, true, [rHel]⟩ =
      { chatInit with inputMessage := "hi", isTyping := true } :=
  ⟨c10_noop_guard.1 { hookInit with input := "  " } (.responded true true [strBytes "x"])
      (by decide),
   c10_noop_guard.2 { chatInit with inputMessage := "hi", isTyping := true }
      ⟨true, true, [rHel]⟩ (Or.inr rfl)⟩

end InterChat
